import Mathlib

/-!
Shallow embedding of the cs7641-assignment-4 repository (src/mdp.py,
src/value_iterations.py, src/policy_iteration.py, src/q_learning.py).

Conventions of the embedding:
* Python floats are modelled as exact rationals (ℚ); the float literals
  1/3, 0.5, 0.9995 of the source become the corresponding rationals.
* Python ints are ℤ (actions) or ℕ (list indices, counters).
* The mutable `self` of each environment is passed explicitly: the only
  mutable attribute of TomAndJerry is `jerry` (a grid cell) and of
  BitStrings is `state` (a 9-character bit string, modelled as a list of
  booleans, true = the character 1).
* `random.choice` / `random.randint` / `random.random` are modelled by an
  explicit draw argument (a natural number reduced modulo the number of
  alternatives, or a rational for `random.random`): every concrete draw
  corresponds to a possible run of the program and conversely.
* A Python `raise` is an `Except.error`; the message text is elided
  (`Except Unit`).  Each `step` returns the post-call value of `self`
  together with the returned triple, so that mutation (or its absence)
  before an exception is visible.
* `while True:` loops (the convergence loops of the two DP solvers and the
  episode loop of Q-learning) are given explicit fuel; running out of fuel
  yields `none`, mirroring a run that has not terminated yet.
-/

namespace Spec2Proof

/-- Python `max(l)` on a nonempty list: fold of `max` over the elements.
The `[]` case is unreachable in the source (Python raises there). -/
def pymax : List ℚ → ℚ
  | [] => 0
  | x :: xs => xs.foldl max x

/-- Python `l.index(max(l))`: index of the first occurrence of the maximum. -/
def pyIdxMax (l : List ℚ) : ℕ := l.indexOf (pymax l)

instance {ε α : Type} [DecidableEq ε] [DecidableEq α] : DecidableEq (Except ε α) := by
  intro a b
  cases a <;> cases b
  case error.error e f => exact decidable_of_iff (e = f) (by simp)
  case ok.ok x y => exact decidable_of_iff (x = y) (by simp)
  all_goals exact isFalse (by simp)

/-- The MDP interface of src/mdp.py (class MDP): the data the solvers
consume.  `get_allowed_states_and_actions` is split into its two
components. -/
structure MDP (S : Type) where
  allowed_states : List S
  allowed_actions : List ℤ
  get_transition_prob : S → ℤ → S → ℚ
  get_reward : S → ℤ → S → ℚ

namespace TomAndJerry

/-- Position of Tom (src/mdp.py line 76). -/
def tom : ℤ × ℤ := (1, 3)

/-- Position of Cheeze (line 77). -/
def cheeze : ℤ × ℤ := (2, 3)

/-- Positions of the traps (line 78). -/
def traps : List (ℤ × ℤ) := [(2, 2), (3, 0)]

/-- The declared action set (line 79); Python stores the set {0,1,2,3},
listed by `get_allowed_states_and_actions` as [0,1,2,3]. -/
def allowed_actions : List ℤ := [0, 1, 2, 3]

/-- All grid cells (r, c), 0 ≤ r, c ≤ 3, that are not traps, in the order
the two nested `for` loops of `get_allowed_states_and_actions` produce
them (lines 82-87). -/
def allowed_states : List (ℤ × ℤ) :=
  (List.range 4).flatMap (fun r =>
    (List.range 4).filterMap (fun c =>
      if ((r : ℤ), (c : ℤ)) ∈ traps then none else some ((r : ℤ), (c : ℤ))))

/-- `get_terminal_states` (lines 92-93). -/
def terminal_states : List (ℤ × ℤ) := [tom, cheeze]

/-- Entry `a` of the Python list dx = [-1, 0, 1, 0] (indices 0..3). -/
def dxv (a : ℤ) : ℤ := if a = 0 then -1 else if a = 1 then 0 else if a = 2 then 1 else 0

/-- Entry `a` of the Python list dy = [0, 1, 0, -1] (indices 0..3). -/
def dyv (a : ℤ) : ℤ := if a = 0 then 0 else if a = 1 then 1 else if a = 2 then 0 else -1

/-- `get_transition_prob` (lines 95-118). -/
def get_transition_prob (state : ℤ × ℤ) (action : ℤ) (next_state : ℤ × ℤ) : ℚ :=
  if state.1 < 0 ∨ state.1 > 3 ∨ state.2 < 0 ∨ state.2 > 3 then 0
  else if action ∉ allowed_actions then 0
  else if state ∈ terminal_states then 0
  else
    let possible_actions : List ℤ := (if action % 2 = 0 then [1, 3] else [0, 2]) ++ [action]
    let possible_next_states : List (ℤ × ℤ) :=
      possible_actions.filterMap (fun a =>
        let new_x := state.1 + dxv a
        let new_y := state.2 + dyv a
        if (new_x, new_y) ∉ traps ∧ 0 ≤ new_x ∧ new_x ≤ 3 ∧ 0 ≤ new_y ∧ new_y ≤ 3 then
          some (new_x, new_y)
        else none)
    if next_state ∈ possible_next_states then 1 / 3 else 0

/-- `get_reward` (lines 120-126). -/
def get_reward (_state : ℤ × ℤ) (_action : ℤ) (next_state : ℤ × ℤ) : ℚ :=
  if next_state = tom then -1 else if next_state = cheeze then 1 else 0

/-- `reset` (lines 128-130): sets jerry to (0,0) and returns (jerry, 0, False). -/
def reset (_jerry : ℤ × ℤ) : (ℤ × ℤ) × ((ℤ × ℤ) × ℚ × Bool) := ((0, 0), ((0, 0), 0, false))

/-- `step` (lines 132-155).  `jerry` is the current value of `self.jerry`;
`d` is the draw of `random.choice` (the list has 3 alternatives, `d % 3`
selects one).  Returns the new `self.jerry` and the returned triple, or the
invalid-action exception. -/
def step (jerry : ℤ × ℤ) (action : ℤ) (d : ℕ) :
    (ℤ × ℤ) × Except Unit ((ℤ × ℤ) × ℚ × Bool) :=
  if action ∉ allowed_actions then (jerry, Except.error ())
  else if jerry ∈ terminal_states then (jerry, Except.ok (jerry, 0, true))
  else
    let a : ℤ :=
      if action % 2 = 0 then
        match d % 3 with
        | 0 => action
        | 1 => 1
        | _ => 3
      else
        match d % 3 with
        | 0 => action
        | 1 => 0
        | _ => 2
    let new_x := jerry.1 + dxv a
    let new_y := jerry.2 + dyv a
    if (new_x, new_y) ∉ traps ∧ 0 ≤ new_x ∧ new_x ≤ 3 ∧ 0 ≤ new_y ∧ new_y ≤ 3 then
      let reward := get_reward jerry a (new_x, new_y)
      ((new_x, new_y), Except.ok ((new_x, new_y), reward, if reward = 0 then false else true))
    else (jerry, Except.ok (jerry, 0, false))

/-- The value of `self.jerry` after one call of `step` (also when the call
raised). -/
def stepEnv (e : ℤ × ℤ) (pr : ℤ × ℕ) : ℤ × ℤ := (step e pr.1 pr.2).1

end TomAndJerry

namespace BitStrings

/-- `positive_terminal_states` (line 175): "010101010" and "101010101". -/
def positive_terminal_states : List (List Bool) :=
  [[false, true, false, true, false, true, false, true, false],
   [true, false, true, false, true, false, true, false, true]]

/-- `negative_terminal_states` (line 176): "111111111". -/
def negative_terminal_states : List (List Bool) := [List.replicate 9 true]

/-- The initial state "000000000" (line 174). -/
def zeros : List Bool := List.replicate 9 false

/-- `__generate_allowed_states` (lines 178-184): depth-first generation of
all 9-bit strings, the 1-branch before the 0-branch.  The Python recursion
stops when the prefix has length 9; here the fuel argument counts the
remaining characters (9 minus the prefix length), which makes the very same
recursion structural. -/
def generate_allowed_states : ℕ → List Bool → List (List Bool)
  | 0, state => [state]
  | n + 1, state =>
      generate_allowed_states n (state ++ [true]) ++ generate_allowed_states n (state ++ [false])

/-- `get_allowed_states_and_actions`, states component (lines 186-189). -/
def allowed_states : List (List Bool) := generate_allowed_states 9 []

/-- `get_allowed_states_and_actions`, actions component: list(range(9)). -/
def allowed_actions : List ℤ := (List.range 9).map Int.ofNat

/-- `get_terminal_states` (lines 194-195). -/
def terminal_states : List (List Bool) := positive_terminal_states ++ negative_terminal_states

/-- Flipping bit `i`: Python computes 1 - int(state[i]) and rebuilds
state[0:i] + str(new_bit) + state[i+1:], i.e. replaces position i with its
negation. -/
def flip (state : List Bool) (i : ℕ) : List Bool := state.set i (! state.getD i false)

/-- `get_transition_prob` (lines 197-215). -/
def get_transition_prob (state : List Bool) (action : ℤ) (next_state : List Bool) : ℚ :=
  if action < 0 ∨ action > 8 then 0
  else if state ∈ terminal_states then 0
  else
    let a := action.toNat
    let possible_next_states : List (List Bool) :=
      if a < 8 then [flip state a, flip state (a + 1)] else [flip state a]
    if next_state ∈ possible_next_states then 1 / 2 else 0

/-- `get_reward` (lines 217-223). -/
def get_reward (_state : List Bool) (_action : ℤ) (next_state : List Bool) : ℚ :=
  if next_state ∈ negative_terminal_states then -2
  else if next_state ∈ positive_terminal_states then 1
  else 0

/-- `reset` (lines 225-227). -/
def reset (_state : List Bool) : (List Bool) × ((List Bool) × ℚ × Bool) :=
  (zeros, (zeros, 0, false))

/-- `step` (lines 229-245).  `state` is the current `self.state`; `d` is
the draw of `random.choice([action, action+1])` (`d % 2` selects). -/
def step (state : List Bool) (action : ℤ) (d : ℕ) :
    (List Bool) × Except Unit ((List Bool) × ℚ × Bool) :=
  if action < 0 ∨ action > 8 then (state, Except.error ())
  else if state ∈ terminal_states then (state, Except.ok (state, 0, true))
  else
    let a : ℕ := if action < 8 then (if d % 2 = 0 then action.toNat else action.toNat + 1)
                 else action.toNat
    let next_state := flip state a
    let reward := get_reward state (a : ℤ) next_state
    (next_state, Except.ok (next_state, reward, if reward = 0 then false else true))

/-- The value of `self.state` after one call of `step`. -/
def stepEnv (e : List Bool) (pr : ℤ × ℕ) : List Bool := (step e pr.1 pr.2).1

end BitStrings

/-- The TomAndJerry environment packaged as the MDP interface the solvers
query. -/
def tomAndJerryMDP : MDP (ℤ × ℤ) :=
  { allowed_states := TomAndJerry.allowed_states
    allowed_actions := TomAndJerry.allowed_actions
    get_transition_prob := TomAndJerry.get_transition_prob
    get_reward := TomAndJerry.get_reward }

/-- The BitStrings environment packaged as the MDP interface. -/
def bitStringsMDP : MDP (List Bool) :=
  { allowed_states := BitStrings.allowed_states
    allowed_actions := BitStrings.allowed_actions
    get_transition_prob := BitStrings.get_transition_prob
    get_reward := BitStrings.get_reward }

/-- Sum of `get_transition_prob state action next_state` over all allowed
`next_state` (the quantity of the spec sentence about probabilities summing
to 1). -/
def sumProb {S : Type} (M : MDP S) (state : S) (action : ℤ) : ℚ :=
  M.allowed_states.foldl (fun acc s2 => acc + M.get_transition_prob state action s2) 0

namespace ValueIteration

variable {S : Type} [DecidableEq S]

/-- `ValueIteration.__Q` (src/value_iterations.py lines 32-43): the one-step
lookahead value, accumulated over all allowed next states. -/
def Q (M : MDP S) (gamma : ℚ) (V : S → ℚ) (s : S) (a : ℤ) : ℚ :=
  M.allowed_states.foldl
    (fun acc s2 => acc + M.get_transition_prob s a s2 * (M.get_reward s a s2 + gamma * V s2)) 0

/-- `ValueIteration.__get_mean_V` (lines 25-30): sum of the state values
divided by their number. -/
def mean_V (M : MDP S) (V : S → ℚ) : ℚ :=
  (M.allowed_states.foldl (fun acc s => acc + V s) 0) / (M.allowed_states.length : ℚ)

/-- One sweep of the convergence loop (lines 54-58): an in-place
(Gauss-Seidel) pass over the allowed states, threading the value function
and the running `delta`. -/
def sweep (M : MDP S) (gamma : ℚ) (p : (S → ℚ) × ℚ) : (S → ℚ) × ℚ :=
  M.allowed_states.foldl
    (fun p s =>
      let old_v := p.1 s
      let new_v := pymax (M.allowed_actions.map (fun a => Q M gamma p.1 s a))
      (Function.update p.1 s new_v, max p.2 |old_v - new_v|))
    p

/-- The `while True` loop of `__call__` (lines 53-61), with fuel: sweep,
append the mean state value, stop when `delta < epsilon`. -/
def loop (M : MDP S) (gamma eps : ℚ) : ℕ → (S → ℚ) → List ℚ → Option ((S → ℚ) × List ℚ)
  | 0, _, _ => none
  | fuel + 1, V, msv =>
      let p := sweep M gamma (V, 0)
      let msv2 := msv ++ [mean_V M p.1]
      if p.2 < eps then some (p.1, msv2) else loop M gamma eps fuel p.1 msv2

/-- The number of sweeps the convergence loop performs before it stops
(same recursion as `loop`, counting instead of accumulating). -/
def num_sweeps (M : MDP S) (gamma eps : ℚ) : ℕ → (S → ℚ) → Option ℕ
  | 0, _ => none
  | fuel + 1, V =>
      let p := sweep M gamma (V, 0)
      if p.2 < eps then some 1 else (num_sweeps M gamma eps fuel p.1).map Nat.succ

/-- `ValueIteration.__call__` (lines 45-66): run the convergence loop from
the all-zero value function with the pre-loop mean recorded first, then
read off the greedy policy; the policy entry is the list index
`Q_s.index(max(Q_s))`. -/
def call (M : MDP S) (gamma eps : ℚ) (fuel : ℕ) : Option ((S → ℕ) × List ℚ) :=
  match loop M gamma eps fuel (fun _ => 0) [mean_V M (fun _ => 0)] with
  | none => none
  | some (V, msv) =>
      some (fun s => pyIdxMax (M.allowed_actions.map (fun a => Q M gamma V s a)), msv)

/-- The policy `call` returns (the all-zero map when the run did not
terminate within its fuel). -/
def callPolicy (M : MDP S) (gamma eps : ℚ) (fuel : ℕ) : S → ℕ :=
  match call M gamma eps fuel with
  | some r => r.1
  | none => fun _ => 0

/-- The value function after one sweep, as a function of the one before. -/
def sweep1 (M : MDP S) (gamma : ℚ) (V : S → ℚ) : S → ℚ := (sweep M gamma (V, 0)).1

end ValueIteration

namespace PolicyIteration

variable {S : Type} [DecidableEq S]

/-- `PolicyIteration.__Q` (src/policy_iteration.py lines 27-38), identical
to the value-iteration lookahead. -/
def Q (M : MDP S) (gamma : ℚ) (V : S → ℚ) (s : S) (a : ℤ) : ℚ :=
  M.allowed_states.foldl
    (fun acc s2 => acc + M.get_transition_prob s a s2 * (M.get_reward s a s2 + gamma * V s2)) 0

/-- One sweep of `__evaluate_policy`s inner loop (lines 46-53): in-place
Bellman-expectation backup under the fixed policy, threading `delta`. -/
def eval_sweep (M : MDP S) (gamma : ℚ) (policy : S → ℤ) (p : (S → ℚ) × ℚ) : (S → ℚ) × ℚ :=
  M.allowed_states.foldl
    (fun p s =>
      let old_v := p.1 s
      let new_v := Q M gamma p.1 s (policy s)
      (Function.update p.1 s new_v, max p.2 |old_v - new_v|))
    p

/-- The `while True` loop of `__evaluate_policy` (fuelled). -/
def eval_loop (M : MDP S) (gamma eps : ℚ) (policy : S → ℤ) :
    ℕ → (S → ℚ) → Option (S → ℚ)
  | 0, _ => none
  | fuel + 1, V =>
      let p := eval_sweep M gamma policy (V, 0)
      if p.2 < eps then some p.1 else eval_loop M gamma eps policy fuel p.1

/-- `__evaluate_policy` (lines 40-54): reset V to zero, then iterate. -/
def evaluate_policy (M : MDP S) (gamma eps : ℚ) (policy : S → ℤ) (fuel : ℕ) :
    Option (S → ℚ) :=
  eval_loop M gamma eps policy fuel (fun _ => 0)

/-- `__policy_update` (lines 56-67): greedy reassignment
`policy[s] = Q_s.index(max(Q_s))`, accumulating `|old - new|`, and the
returned mean policy change. -/
def policy_update (M : MDP S) (gamma : ℚ) (V : S → ℚ) (policy : S → ℤ) : (S → ℤ) × ℚ :=
  let p :=
    M.allowed_states.foldl
      (fun (p : (S → ℤ) × ℚ) s =>
        let old_a := p.1 s
        let Qs := M.allowed_actions.map (fun a => Q M gamma V s a)
        let new_a : ℤ := (Qs.indexOf (pymax Qs) : ℕ)
        (Function.update p.1 s new_a, p.2 + |old_a - new_a|))
      (policy, 0)
  (p.1, p.2 / (M.allowed_states.length : ℚ))

/-- The `while True` loop of `__call__` (lines 77-84), with fuel for the
outer loop and for each inner evaluation loop. -/
def loop (M : MDP S) (gamma eps : ℚ) (eval_fuel : ℕ) :
    ℕ → (S → ℤ) → List ℚ → Option ((S → ℤ) × List ℚ × (S → ℚ))
  | 0, _, _ => none
  | fuel + 1, policy, changes =>
      match evaluate_policy M gamma eps policy eval_fuel with
      | none => none
      | some V =>
          let p := policy_update M gamma V policy
          let changes2 := changes ++ [p.2]
          if p.2 = 0 then some (p.1, changes2, V) else loop M gamma eps eval_fuel fuel p.1 changes2

/-- `PolicyIteration.__call__` (lines 69-85); the initial policy (Python
draws it at construction with `random.choice`) is a parameter. -/
def call (M : MDP S) (gamma eps : ℚ) (eval_fuel fuel : ℕ) (policy0 : S → ℤ) :
    Option ((S → ℤ) × List ℚ × (S → ℚ)) :=
  loop M gamma eps eval_fuel fuel policy0 []

/-- The policy `call` returns (all-zero when the run did not terminate). -/
def callPolicy (M : MDP S) (gamma eps : ℚ) (eval_fuel fuel : ℕ) (policy0 : S → ℤ) : S → ℤ :=
  match call M gamma eps eval_fuel fuel policy0 with
  | some r => r.1
  | none => fun _ => 0

/-- The value function `call` returns (all-zero when the run did not
terminate). -/
def callV (M : MDP S) (gamma eps : ℚ) (eval_fuel fuel : ℕ) (policy0 : S → ℤ) : S → ℚ :=
  match call M gamma eps eval_fuel fuel policy0 with
  | some r => r.2.2
  | none => fun _ => 0

/-- The action index `__policy_update` assigns to a state:
`Q_s.index(max(Q_s))` for the row of Q values at `s` under `V`. -/
def greedy (M : MDP S) (gamma : ℚ) (V : S → ℚ) (s : S) : ℤ :=
  (pyIdxMax (M.allowed_actions.map (fun a => Q M gamma V s a)) : ℕ)

end PolicyIteration

/-- The stateful environment interface Q-learning drives (`reset` and
`step` of src/mdp.py): `E` is the type of the environment's internal
state, the `ℕ` argument of `step` is its internal random draw. -/
structure EnvIface (E S : Type) where
  reset : E → E × (S × ℚ × Bool)
  step : E → ℤ → ℕ → E × Except Unit (S × ℚ × Bool)

/-- TomAndJerry as the stateful interface. -/
def tomAndJerryEnv : EnvIface (ℤ × ℤ) (ℤ × ℤ) :=
  { reset := TomAndJerry.reset, step := TomAndJerry.step }

/-- BitStrings as the stateful interface. -/
def bitStringsEnv : EnvIface (List Bool) (List Bool) :=
  { reset := BitStrings.reset, step := BitStrings.step }

namespace QLearning

/-- The random draws a Q-learning run consumes, indexed by the running
count of inner-loop iterations: `p t` models `random.random()`, `k t` the
draw behind `random.randint(0, n-1)` (reduced mod n), `d t` the draw the
environment's own `random.choice` consumes inside `step`. -/
structure RandTape where
  p : ℕ → ℚ
  k : ℕ → ℕ
  d : ℕ → ℕ

variable {S E : Type} [DecidableEq S]

/-- `QLearning.__select_action` (src/q_learning.py lines 30-41): with
probability `eps` a uniform index into the allowed actions, otherwise
`self.Q[s].index(max(self.Q[s]))`. -/
def select_action (M : MDP S) (tape : RandTape) (t : ℕ) (eps : ℚ)
    (Qt : S → List ℚ) (s : S) : ℕ :=
  if tape.p t < eps then tape.k t % M.allowed_actions.length else pyIdxMax (Qt s)

/-- The temporal-difference update of line 68:
`Q[s][a] += alpha * (r + gamma * max(Q[s2]) - Q[s][a])`; only row `s` is
rebuilt, with only index `a` replaced. -/
def td_update (alpha gamma : ℚ) (Qt : S → List ℚ) (s : S) (a : ℕ) (s2 : S) (r : ℚ) :
    S → List ℚ :=
  fun t =>
    if t = s then
      (Qt s).set a ((Qt s).getD a 0 + alpha * (r + gamma * pymax (Qt s2) - (Qt s).getD a 0))
    else Qt t

/-- Line 60/70: the mean over allowed states of `max(Q[s])` (the mean of
`__get_V`). -/
def mean_V (M : MDP S) (Qt : S → List ℚ) : ℚ :=
  (M.allowed_states.foldl (fun acc s => acc + pymax (Qt s)) 0) / (M.allowed_states.length : ℚ)

/-- The `while not episode_end` loop of `__call__` (lines 65-70), with
fuel. `t` indexes the random tape. Returns the new tape index, environment
state, Q table and diagnostic list, or the propagated invalid-action
error, or `none` when the fuel ran out. -/
def inner (M : MDP S) (env : EnvIface E S) (alpha gamma : ℚ) (tape : RandTape) :
    ℕ → ℕ → ℚ → E → S → Bool → (S → List ℚ) → List ℚ →
    Option (Except Unit (ℕ × E × (S → List ℚ) × List ℚ))
  | fuel, t, eps, e, s, episode_end, Qt, msv =>
      if episode_end then some (Except.ok (t, e, Qt, msv))
      else
        match fuel with
        | 0 => none
        | fuel + 1 =>
            let a := select_action M tape t eps Qt s
            match env.step e (a : ℤ) (tape.d t) with
            | (_, Except.error u) => some (Except.error u)
            | (e2, Except.ok (s2, r, end2)) =>
                let Q2 := td_update alpha gamma Qt s a s2 r
                inner M env alpha gamma tape fuel (t + 1) eps e2 s2 end2 Q2
                  (msv ++ [mean_V M Q2])

/-- The `for episode in range(num_episodes)` loop (lines 61-70): decay
`eps`, reset, run the inner loop. -/
def episodes (M : MDP S) (env : EnvIface E S) (alpha gamma : ℚ) (tape : RandTape)
    (inner_fuel : ℕ) :
    ℕ → ℕ → ℚ → E → (S → List ℚ) → List ℚ →
    Option (Except Unit ((S → List ℚ) × List ℚ))
  | 0, _, _, _, Qt, msv => some (Except.ok (Qt, msv))
  | n + 1, t, eps, e, Qt, msv =>
      let eps2 := (9995 / 10000 : ℚ) * eps
      let res := env.reset e
      match inner M env alpha gamma tape inner_fuel t eps2 res.1 res.2.1 res.2.2.2 Qt msv with
      | none => none
      | some (Except.error u) => some (Except.error u)
      | some (Except.ok (t2, e2, Q2, msv2)) =>
          episodes M env alpha gamma tape inner_fuel n t2 eps2 e2 Q2 msv2

/-- `QLearning.__call__` (lines 53-76): zero-initialised Q table, the
pre-loop mean state value recorded first, the episode loop, then the
greedy policy `Q[s].index(max(Q[s]))`. -/
def call (M : MDP S) (env : EnvIface E S) (e0 : E) (alpha gamma eps0 : ℚ)
    (tape : RandTape) (inner_fuel num_episodes : ℕ) :
    Option (Except Unit ((S → ℕ) × List ℚ)) :=
  let Q0 : S → List ℚ := fun _ => List.replicate M.allowed_actions.length 0
  match episodes M env alpha gamma tape inner_fuel num_episodes 0 eps0 e0 Q0 [mean_V M Q0] with
  | none => none
  | some (Except.error u) => some (Except.error u)
  | some (Except.ok (Qt, msv)) => some (Except.ok (fun s => pyIdxMax (Qt s), msv))

/-- The policy `call` returns (all-zero when the run errored or ran out of
fuel). -/
def callPolicy (M : MDP S) (env : EnvIface E S) (e0 : E) (alpha gamma eps0 : ℚ)
    (tape : RandTape) (inner_fuel num_episodes : ℕ) : S → ℕ :=
  match call M env e0 alpha gamma eps0 tape inner_fuel num_episodes with
  | some (Except.ok r) => r.1
  | _ => fun _ => 0

end QLearning

/-- Whether a solver run ended in the propagated invalid-action exception. -/
def errored {α : Type} : Option (Except Unit α) → Bool
  | some (Except.error _) => true
  | _ => false

/-- Whether a solver run returned normally. -/
def isOkRun {α : Type} : Option (Except Unit α) → Bool
  | some (Except.ok _) => true
  | _ => false

/-- The list of integers 0, 1, ..., n-1 (Python list(range(n))): the shape
of both environments' declared action lists. -/
def intRange (n : ℕ) : List ℤ := (List.range n).map Int.ofNat

/-- Whether a call of `step` raised the invalid-action exception. -/
def isError {ε α : Type} : Except ε α → Bool
  | Except.error _ => true
  | Except.ok _ => false

/-- A one-state MDP whose single state is terminal (all transition
probabilities zero): the smallest instance of the solver interface, used
to exhibit concrete solver runs. -/
def tinyMDP : MDP Unit :=
  { allowed_states := [()]
    allowed_actions := [0]
    get_transition_prob := fun _ _ _ => 0
    get_reward := fun _ _ _ => 0 }

/-- A trivial stateful environment over the one-state MDP: every episode
is over immediately. -/
def tinyEnv : EnvIface Unit Unit :=
  { reset := fun e => (e, ((), 0, true)), step := fun e _ _ => (e, Except.ok ((), 0, true)) }

/-- The all-zero random tape. -/
def zeroTape : QLearning.RandTape := { p := fun _ => 0, k := fun _ => 0, d := fun _ => 0 }

set_option maxRecDepth 2000

/-! Helper lemmas about list folds and Python max/index. -/

lemma foldl_add_eq {α : Type} (l : List α) (f : α → ℚ) :
    ∀ c : ℚ, l.foldl (fun acc s => acc + f s) c = c + (l.map f).sum := by
  induction l with
  | nil => intro c; simp
  | cons a t ih => intro c; simp [ih, add_assoc]

lemma sum_map_single {α : Type} [DecidableEq α] (l : List α) (x : α) (c : ℚ) :
    (l.map (fun s => if s = x then c else 0)).sum = (l.countP (fun s => s = x) : ℚ) * c := by
  induction l with
  | nil => simp
  | cons a t ih =>
      by_cases h : a = x
      · simp [h, List.countP_cons, ih]; ring
      · simp [h, List.countP_cons, ih]

/-- From the state "000000000", action 8 reaches exactly the flip of the
last bit, with probability 1/2 (the set built by `get_transition_prob` has
a single element for action 8, yet the probability returned is still 0.5). -/
lemma bs_pointwise (s2 : List Bool) :
    bitStringsMDP.get_transition_prob BitStrings.zeros 8 s2 =
      if s2 = BitStrings.flip BitStrings.zeros 8 then 1 / 2 else 0 := by
  show BitStrings.get_transition_prob BitStrings.zeros 8 s2 = _
  unfold BitStrings.get_transition_prob
  rw [if_neg (by decide), if_neg (by decide)]
  rw [show ((8 : ℤ).toNat) = (8 : ℕ) from rfl]
  norm_num

/-- C1: the claim that `get_transition_prob` sums to 1 over all allowed
next states for every non-terminal (state, action) pair is violated by the
code: from the non-terminal grid state (0,0) with allowed action 1 the sum
is 2/3 (the blocked "stay" outcome gets no probability), and from the
non-terminal bit string "000000000" with allowed action 8 the sum is 1/2
(the guaranteed last-bit flip is still given probability 0.5). -/
theorem transition_prob_sum_not_one :
    sumProb tomAndJerryMDP ((0 : ℤ), (0 : ℤ)) 1 = 2 / 3 ∧
    ((0 : ℤ), (0 : ℤ)) ∈ tomAndJerryMDP.allowed_states ∧
    ((0 : ℤ), (0 : ℤ)) ∉ TomAndJerry.terminal_states ∧
    (1 : ℤ) ∈ tomAndJerryMDP.allowed_actions ∧
    sumProb bitStringsMDP BitStrings.zeros 8 = 1 / 2 ∧
    BitStrings.zeros ∈ bitStringsMDP.allowed_states ∧
    BitStrings.zeros ∉ BitStrings.terminal_states ∧
    (8 : ℤ) ∈ bitStringsMDP.allowed_actions := by
  refine ⟨by with_unfolding_all decide, by decide, by decide, by decide, ?_,
    by decide, by decide, by decide⟩
  unfold sumProb
  rw [show (fun (acc : ℚ) s2 => acc + bitStringsMDP.get_transition_prob BitStrings.zeros 8 s2)
        = (fun acc s2 => acc + (if s2 = BitStrings.flip BitStrings.zeros 8 then 1 / 2 else 0))
      from funext fun acc => funext fun s2 => by rw [bs_pointwise]]
  rw [foldl_add_eq, sum_map_single]
  rw [show bitStringsMDP.allowed_states.countP
        (fun s => decide (s = BitStrings.flip BitStrings.zeros 8)) = 1 by decide]
  norm_num

/-- Membership in the declared BitStrings action list is the bound check of
its `step` and `get_transition_prob`. -/
lemma bs_action_mem (a : ℤ) : a ∈ BitStrings.allowed_actions ↔ 0 ≤ a ∧ a ≤ 8 := by
  simp only [BitStrings.allowed_actions, List.mem_map, List.mem_range,
    Int.ofNat_eq_natCast]
  constructor
  · rintro ⟨n, hn, rfl⟩; omega
  · intro h
    exact ⟨a.toNat, by omega, by omega⟩

lemma isError_snd_ite {ε α β : Type} (c : Prop) [Decidable c] (p1 p2 : β) (v1 v2 : α) :
    isError ((if c then (p1, (Except.ok v1 : Except ε α)) else (p2, Except.ok v2)).2) = false := by
  split <;> rfl

/-- `step` raises exactly on actions outside the declared set (shared form
of the C2 statement). -/
lemma step_error_iff_aux :
    (∀ e a d, (isError (TomAndJerry.step e a d).2 = true ↔ a ∉ TomAndJerry.allowed_actions)) ∧
    (∀ s a d, (isError (BitStrings.step s a d).2 = true ↔ a ∉ BitStrings.allowed_actions)) := by
  constructor
  · intro e a d
    by_cases h : a ∈ TomAndJerry.allowed_actions
    · unfold TomAndJerry.step
      rw [if_neg (not_not_intro h)]
      split
      · simpa [isError] using h
      · simpa [isError_snd_ite] using h
    · unfold TomAndJerry.step
      rw [if_pos h]
      simpa [isError] using h
  · intro s a d
    by_cases h : a ∈ BitStrings.allowed_actions
    · have hb : ¬(a < 0 ∨ a > 8) := by rw [bs_action_mem] at h; omega
      unfold BitStrings.step
      rw [if_neg hb]
      split <;> simpa [isError] using h
    · have hb : a < 0 ∨ a > 8 := by rw [bs_action_mem] at h; omega
      unfold BitStrings.step
      rw [if_pos hb]
      simpa [isError] using h

/-- C2: `step` fails with the invalid-action error exactly when the action
is outside the declared allowed-action set, in both environments. -/
theorem step_error_iff_invalid :
    (∀ e a d, (isError (TomAndJerry.step e a d).2 = true ↔ a ∉ TomAndJerry.allowed_actions)) ∧
    (∀ s a d, (isError (BitStrings.step s a d).2 = true ↔ a ∉ BitStrings.allowed_actions)) :=
  step_error_iff_aux

/-- C9: an invalid-action call of `step` raises before any mutation: the
environment state is returned unchanged alongside the error, in both
environments. -/
theorem step_invalid_state_unchanged :
    (∀ e a d, a ∉ TomAndJerry.allowed_actions →
      TomAndJerry.step e a d = (e, Except.error ())) ∧
    (∀ s a d, a ∉ BitStrings.allowed_actions →
      BitStrings.step s a d = (s, Except.error ())) := by
  constructor
  · intro e a d h
    unfold TomAndJerry.step
    rw [if_pos h]
  · intro s a d h
    have hb : a < 0 ∨ a > 8 := by rw [bs_action_mem] at h; omega
    unfold BitStrings.step
    rw [if_pos hb]

/-- C9 witness: concrete invalid actions leave both environments untouched. -/
theorem step_invalid_state_unchanged_witness :
    TomAndJerry.step ((0 : ℤ), (0 : ℤ)) 7 5 = (((0 : ℤ), (0 : ℤ)), Except.error ()) ∧
    BitStrings.step BitStrings.zeros 9 0 = (BitStrings.zeros, Except.error ()) :=
  ⟨step_invalid_state_unchanged.1 ((0 : ℤ), (0 : ℤ)) 7 5 (by decide),
   step_invalid_state_unchanged.2 BitStrings.zeros 9 0 (by decide)⟩

/-- A nonzero TomAndJerry reward marks arrival at a terminal cell. -/
lemma tj_reward_terminal {s : ℤ × ℤ} {a : ℤ} {ns : ℤ × ℤ}
    (h : TomAndJerry.get_reward s a ns ≠ 0) : ns ∈ TomAndJerry.terminal_states := by
  unfold TomAndJerry.get_reward at h
  unfold TomAndJerry.terminal_states
  split at h
  · simp_all
  · split at h
    · simp_all
    · simp_all

/-- A nonzero BitStrings reward marks arrival at a terminal string. -/
lemma bs_reward_terminal {s : List Bool} {a : ℤ} {ns : List Bool}
    (h : BitStrings.get_reward s a ns ≠ 0) : ns ∈ BitStrings.terminal_states := by
  unfold BitStrings.get_reward at h
  unfold BitStrings.terminal_states
  rw [List.mem_append]
  split at h
  · simp_all
  · split at h
    · simp_all
    · simp_all

/-- Whenever `step` reports the episode done, the environment sits on a
terminal state, which is also the state it returned. -/
lemma tj_step_done {e eo st : ℤ × ℤ} {a : ℤ} {d : ℕ} {r : ℚ}
    (h : TomAndJerry.step e a d = (eo, Except.ok (st, r, true))) :
    st = eo ∧ eo ∈ TomAndJerry.terminal_states := by
  unfold TomAndJerry.step at h
  by_cases h1 : a ∉ TomAndJerry.allowed_actions
  · rw [if_pos h1] at h
    simp at h
  · rw [if_neg h1] at h
    by_cases h2 : e ∈ TomAndJerry.terminal_states
    · rw [if_pos h2] at h
      simp only [Prod.mk.injEq, Except.ok.injEq] at h
      obtain ⟨ha, hb, _, _⟩ := h
      exact ⟨hb.symm.trans ha, ha ▸ h2⟩
    · rw [if_neg h2] at h
      dsimp only at h
      set am : ℤ :=
        (if a % 2 = 0 then
          (match d % 3 with
            | 0 => a
            | 1 => 1
            | _ => 3)
        else
          (match d % 3 with
            | 0 => a
            | 1 => 0
            | _ => 2)) with ham
      by_cases h3 : ((e.1 + TomAndJerry.dxv am, e.2 + TomAndJerry.dyv am) ∉ TomAndJerry.traps ∧
          0 ≤ e.1 + TomAndJerry.dxv am ∧ e.1 + TomAndJerry.dxv am ≤ 3 ∧
          0 ≤ e.2 + TomAndJerry.dyv am ∧ e.2 + TomAndJerry.dyv am ≤ 3)
      · rw [if_pos h3] at h
        simp only [Prod.mk.injEq, Except.ok.injEq] at h
        obtain ⟨ha, hb, _, hdone⟩ := h
        have hR : TomAndJerry.get_reward e am
            (e.1 + TomAndJerry.dxv am, e.2 + TomAndJerry.dyv am) ≠ 0 := by
          intro h0
          rw [if_pos h0] at hdone
          exact Bool.false_ne_true hdone
        exact ⟨hb.symm.trans ha, ha ▸ tj_reward_terminal hR⟩
      · rw [if_neg h3] at h
        simp at h

/-- BitStrings analogue of `tj_step_done`. -/
lemma bs_step_done {e eo st : List Bool} {a : ℤ} {d : ℕ} {r : ℚ}
    (h : BitStrings.step e a d = (eo, Except.ok (st, r, true))) :
    st = eo ∧ eo ∈ BitStrings.terminal_states := by
  unfold BitStrings.step at h
  by_cases h1 : a < 0 ∨ a > 8
  · rw [if_pos h1] at h
    simp at h
  · rw [if_neg h1] at h
    by_cases h2 : e ∈ BitStrings.terminal_states
    · rw [if_pos h2] at h
      simp only [Prod.mk.injEq, Except.ok.injEq] at h
      obtain ⟨ha, hb, _, _⟩ := h
      exact ⟨hb.symm.trans ha, ha ▸ h2⟩
    · rw [if_neg h2] at h
      dsimp only at h
      set am : ℕ :=
        (if a < 8 then (if d % 2 = 0 then a.toNat else a.toNat + 1) else a.toNat) with ham
      simp only [Prod.mk.injEq, Except.ok.injEq] at h
      obtain ⟨ha, hb, _, hdone⟩ := h
      have hR : BitStrings.get_reward e (am : ℤ) (BitStrings.flip e am) ≠ 0 := by
        intro h0
        rw [if_pos h0] at hdone
        exact Bool.false_ne_true hdone
      exact ⟨hb.symm.trans ha, ha ▸ bs_reward_terminal hR⟩

/-- On a terminal state a valid action is a no-op returning zero reward and
done, leaving the state alone. -/
lemma tj_step_terminal {e : ℤ × ℤ} {a : ℤ} (d : ℕ)
    (ht : e ∈ TomAndJerry.terminal_states) (ha : a ∈ TomAndJerry.allowed_actions) :
    TomAndJerry.step e a d = (e, Except.ok (e, 0, true)) := by
  unfold TomAndJerry.step
  rw [if_neg (not_not_intro ha), if_pos ht]

/-- BitStrings analogue of `tj_step_terminal`. -/
lemma bs_step_terminal {e : List Bool} {a : ℤ} (d : ℕ)
    (ht : e ∈ BitStrings.terminal_states) (ha : a ∈ BitStrings.allowed_actions) :
    BitStrings.step e a d = (e, Except.ok (e, 0, true)) := by
  have hb : ¬(a < 0 ∨ a > 8) := by rw [bs_action_mem] at ha; omega
  unfold BitStrings.step
  rw [if_neg hb, if_pos ht]

/-- C6: once a `step` call has returned done = True, every further valid
`step` (any number of repetitions, any draws) returns the same state, zero
reward and done = True, and never mutates the environment again. -/
theorem step_done_idempotent :
    (∀ (e eo st : ℤ × ℤ) (a : ℤ) (d : ℕ) (r : ℚ),
      TomAndJerry.step e a d = (eo, Except.ok (st, r, true)) →
      ∀ l : List (ℤ × ℕ), (∀ pr ∈ l, pr.1 ∈ TomAndJerry.allowed_actions) →
        (List.foldl TomAndJerry.stepEnv eo l = eo ∧
         ∀ pr ∈ l, TomAndJerry.step eo pr.1 pr.2 = (eo, Except.ok (eo, 0, true)))) ∧
    (∀ (e eo st : List Bool) (a : ℤ) (d : ℕ) (r : ℚ),
      BitStrings.step e a d = (eo, Except.ok (st, r, true)) →
      ∀ l : List (ℤ × ℕ), (∀ pr ∈ l, pr.1 ∈ BitStrings.allowed_actions) →
        (List.foldl BitStrings.stepEnv eo l = eo ∧
         ∀ pr ∈ l, BitStrings.step eo pr.1 pr.2 = (eo, Except.ok (eo, 0, true)))) := by
  constructor
  · intro e eo st a d r h l hl
    have ht : eo ∈ TomAndJerry.terminal_states := (tj_step_done h).2
    constructor
    · induction l with
      | nil => rfl
      | cons pr t ih =>
          have h1 : TomAndJerry.stepEnv eo pr = eo := by
            unfold TomAndJerry.stepEnv
            rw [tj_step_terminal pr.2 ht (hl pr (List.mem_cons_self pr t))]
          rw [List.foldl_cons, h1]
          exact ih (fun q hq => hl q (List.mem_cons_of_mem pr hq))
    · intro pr hpr
      exact tj_step_terminal pr.2 ht (hl pr hpr)
  · intro e eo st a d r h l hl
    have ht : eo ∈ BitStrings.terminal_states := (bs_step_done h).2
    constructor
    · induction l with
      | nil => rfl
      | cons pr t ih =>
          have h1 : BitStrings.stepEnv eo pr = eo := by
            unfold BitStrings.stepEnv
            rw [bs_step_terminal pr.2 ht (hl pr (List.mem_cons_self pr t))]
          rw [List.foldl_cons, h1]
          exact ih (fun q hq => hl q (List.mem_cons_of_mem pr hq))
    · intro pr hpr
      exact bs_step_terminal pr.2 ht (hl pr hpr)

/-! Facts about `pymax` and `pyIdxMax`: the maximum of a nonempty list is
attained in the list, bounds every element, and `l.index(max(l))` is the
first position attaining it. -/

lemma foldl_max_le_init : ∀ (xs : List ℚ) (b : ℚ), b ≤ xs.foldl max b := by
  intro xs
  induction xs with
  | nil => intro b; simp
  | cons y t ih => intro b; exact le_trans (le_max_left b y) (ih (max b y))

lemma foldl_max_le_mem : ∀ (xs : List ℚ) (b x : ℚ), x ∈ xs → x ≤ xs.foldl max b := by
  intro xs
  induction xs with
  | nil => intro b x hx; exact absurd hx (List.not_mem_nil x)
  | cons y t ih =>
      intro b x hx
      rcases List.mem_cons.mp hx with h | h
      · subst h
        exact le_trans (le_max_right b x) (foldl_max_le_init t (max b x))
      · exact ih (max b y) x h

lemma foldl_max_mem : ∀ (xs : List ℚ) (b : ℚ), xs.foldl max b ∈ b :: xs := by
  intro xs
  induction xs with
  | nil => intro b; simp
  | cons y t ih =>
      intro b
      rw [List.foldl_cons]
      rcases List.mem_cons.mp (ih (max b y)) with h | h
      · rw [h]
        rcases max_choice b y with hm | hm <;> rw [hm] <;> simp
      · simp [h]

lemma pymax_mem {l : List ℚ} (h : l ≠ []) : pymax l ∈ l := by
  cases l with
  | nil => exact absurd rfl h
  | cons x xs => exact foldl_max_mem xs x

lemma le_pymax {l : List ℚ} {x : ℚ} (hx : x ∈ l) : x ≤ pymax l := by
  cases l with
  | nil => exact absurd hx (List.not_mem_nil x)
  | cons y t =>
      rcases List.mem_cons.mp hx with h | h
      · subst h; exact foldl_max_le_init t x
      · exact foldl_max_le_mem t y x h

lemma pyIdxMax_lt {l : List ℚ} (h : l ≠ []) : pyIdxMax l < l.length :=
  List.indexOf_lt_length.mpr (pymax_mem h)

lemma get_pyIdxMax {l : List ℚ} (h : pyIdxMax l < l.length) :
    l.get ⟨pyIdxMax l, h⟩ = pymax l :=
  List.indexOf_get h

lemma get_before_indexOf {α : Type} [DecidableEq α] :
    ∀ (l : List α) (a : α) (i : ℕ) (hl : i < l.length),
      i < l.indexOf a → l.get ⟨i, hl⟩ ≠ a := by
  intro l
  induction l with
  | nil => intro a i hl _; exact absurd hl (by simp)
  | cons b t ih =>
      intro a i hl hi
      by_cases hb : b = a
      · rw [List.indexOf_cons_eq t hb] at hi
        exact absurd hi (Nat.not_lt_zero i)
      · cases i with
        | zero => simpa using hb
        | succ i =>
            rw [List.indexOf_cons_ne t hb] at hi
            exact ih a i (Nat.lt_of_succ_lt_succ hl) (Nat.lt_of_succ_lt_succ hi)

/-- The convergence loop of Value Iteration appends one mean state value
per sweep to whatever diagnostic prefix it was started with, and agrees
with `num_sweeps`. -/
lemma vi_loop_spec {S : Type} [DecidableEq S] (M : MDP S) (gamma eps : ℚ) :
    ∀ (fuel : ℕ) (V : S → ℚ) (acc : List ℚ) (r : (S → ℚ) × List ℚ),
      ValueIteration.loop M gamma eps fuel V acc = some r →
      ∃ n, ValueIteration.num_sweeps M gamma eps fuel V = some n ∧
        r.2 = acc ++ (List.range n).map
          (fun i => ValueIteration.mean_V M ((ValueIteration.sweep1 M gamma)^[i + 1] V)) := by
  intro fuel
  induction fuel with
  | zero => intro V acc r h; exact absurd h (by simp [ValueIteration.loop])
  | succ fuel ih =>
      intro V acc r h
      rw [ValueIteration.loop] at h
      by_cases hlt : (ValueIteration.sweep M gamma (V, 0)).2 < eps
      · rw [if_pos hlt] at h
        refine ⟨1, ?_, ?_⟩
        · rw [ValueIteration.num_sweeps, if_pos hlt]
        · rw [← Option.some_inj.mp h]
          simp [ValueIteration.sweep1, List.range_succ]
      · rw [if_neg hlt] at h
        obtain ⟨n, hn, hd⟩ := ih (ValueIteration.sweep M gamma (V, 0)).1
          (acc ++ [ValueIteration.mean_V M (ValueIteration.sweep M gamma (V, 0)).1]) r h
        refine ⟨n + 1, ?_, ?_⟩
        · rw [ValueIteration.num_sweeps, if_neg hlt, hn]
          rfl
        · rw [hd, List.append_assoc]
          congr 1
          rw [List.range_succ_eq_map, List.map_cons, List.map_map, List.singleton_append,
            List.cons_eq_cons]
          refine ⟨?_, ?_⟩
          · simp [ValueIteration.sweep1]
          · apply List.map_congr_left
            intro i _
            simp only [Function.comp_apply]
            congr 1

/-- C3 counterexample: on the one-state MDP the convergence loop performs
exactly one sweep, yet the returned diagnostic sequence has two entries
(the pre-loop mean is recorded as well), so the sequence does not contain
exactly one entry per sweep. -/
theorem vi_diag_counterexample :
    ValueIteration.num_sweeps tinyMDP (9 / 10) (1 / 10000) 5 (fun _ => 0) = some 1 ∧
    (ValueIteration.call tinyMDP (9 / 10) (1 / 10000) 5).map (fun r => r.2.length) = some 2 := by
  with_unfolding_all decide

/-- C3 (amended): the diagnostic sequence of a terminating Value Iteration
run has one entry more than the number of sweeps: the pre-loop mean of the
zero-initialised V first, then one entry per sweep, each equal to the mean
of V right after that sweep. -/
theorem vi_diag_spec (S : Type) [DecidableEq S] (M : MDP S) (gamma eps : ℚ) (fuel : ℕ)
    (msv : List ℚ) (n : ℕ)
    (hm : (ValueIteration.call M gamma eps fuel).map Prod.snd = some msv)
    (hn : ValueIteration.num_sweeps M gamma eps fuel (fun _ => 0) = some n) :
    msv.length = n + 1 ∧
    ∀ k (hk : k < msv.length),
      msv.get ⟨k, hk⟩ =
        ValueIteration.mean_V M ((ValueIteration.sweep1 M gamma)^[k] (fun _ => 0)) := by
  have hform : msv = (List.range (n + 1)).map
      (fun i => ValueIteration.mean_V M ((ValueIteration.sweep1 M gamma)^[i] (fun _ => 0))) := by
    cases hl : ValueIteration.loop M gamma eps fuel (fun _ => 0)
        [ValueIteration.mean_V M (fun _ => 0)] with
    | none =>
        rw [ValueIteration.call, hl] at hm
        simp at hm
    | some r =>
        rw [ValueIteration.call, hl] at hm
        simp only [Option.map_some', Option.some_inj] at hm
        obtain ⟨n2, hn2, hd⟩ := vi_loop_spec M gamma eps fuel (fun _ => 0)
          [ValueIteration.mean_V M (fun _ => 0)] r hl
        rw [hn] at hn2
        have hnn : n2 = n := (Option.some_inj.mp hn2).symm
        subst hnn
        rw [← hm, hd, List.range_succ_eq_map, List.map_cons, List.map_map]
        simp only [Function.iterate_zero_apply, List.singleton_append, List.cons.injEq]
        refine ⟨trivial, ?_⟩
        apply List.map_congr_left
        intro i _
        simp [Function.comp_apply]
  subst hform
  constructor
  · simp
  · intro k hk
    simp only [List.get_eq_getElem, List.getElem_map, List.getElem_range]

/-- C3 witness: the concrete one-state run satisfies the amended
statement: two entries for one sweep. -/
theorem vi_diag_spec_witness : ([(0 : ℚ), 0]).length = 1 + 1 :=
  (vi_diag_spec Unit tinyMDP (9 / 10) (1 / 10000) 5 [0, 0] 1
    (by with_unfolding_all decide) (by with_unfolding_all decide)).1

/-- C6 witness: after hitting Tom from (0,3) (done = True, reward -1) the
grid environment is frozen at (1,3); the terminal bit string "010101010"
likewise never moves again. -/
theorem step_done_idempotent_witness :
    List.foldl TomAndJerry.stepEnv ((1 : ℤ), (3 : ℤ)) [((0 : ℤ), (0 : ℕ)), (1, 1), (3, 7)]
        = ((1 : ℤ), (3 : ℤ)) ∧
    List.foldl BitStrings.stepEnv
        [false, true, false, true, false, true, false, true, false] [((4 : ℤ), (1 : ℕ))]
        = [false, true, false, true, false, true, false, true, false] :=
  ⟨(step_done_idempotent.1 (0, 3) (1, 3) (1, 3) 2 0 (-1) (by with_unfolding_all decide)
      [((0 : ℤ), (0 : ℕ)), (1, 1), (3, 7)] (by decide)).1,
   (step_done_idempotent.2 [false, true, false, true, false, true, false, true, false]
      [false, true, false, true, false, true, false, true, false]
      [false, true, false, true, false, true, false, true, false] 0 0 0
      (by with_unfolding_all decide) [((4 : ℤ), (1 : ℕ))] (by decide)).1⟩

/-! Policy iteration: the returned policy is the first-occurring argmax of
the Q values computed from the returned value function. -/

lemma pu_fold_not_mem {S : Type} [DecidableEq S] (M : MDP S) (gamma : ℚ) (V : S → ℚ) :
    ∀ (l : List S) (p : (S → ℤ) × ℚ) (s : S), s ∉ l →
      (l.foldl
        (fun (p : (S → ℤ) × ℚ) s =>
          let old_a := p.1 s
          let Qs := M.allowed_actions.map (fun a => PolicyIteration.Q M gamma V s a)
          let new_a : ℤ := (Qs.indexOf (pymax Qs) : ℕ)
          (Function.update p.1 s new_a, p.2 + |old_a - new_a|)) p).1 s = p.1 s := by
  intro l
  induction l with
  | nil => intro p s _; rfl
  | cons a t ih =>
      intro p s hs
      rw [List.foldl_cons]
      rw [ih _ s (fun hmem => hs (List.mem_cons_of_mem a hmem))]
      have hne : s ≠ a := fun he => hs (by rw [he]; exact List.mem_cons_self a t)
      exact Function.update_noteq hne _ _

lemma pu_fold_mem {S : Type} [DecidableEq S] (M : MDP S) (gamma : ℚ) (V : S → ℚ) :
    ∀ (l : List S) (p : (S → ℤ) × ℚ) (s : S), s ∈ l →
      (l.foldl
        (fun (p : (S → ℤ) × ℚ) s =>
          let old_a := p.1 s
          let Qs := M.allowed_actions.map (fun a => PolicyIteration.Q M gamma V s a)
          let new_a : ℤ := (Qs.indexOf (pymax Qs) : ℕ)
          (Function.update p.1 s new_a, p.2 + |old_a - new_a|)) p).1 s =
      PolicyIteration.greedy M gamma V s := by
  intro l
  induction l with
  | nil => intro p s hs; exact absurd hs (List.not_mem_nil s)
  | cons a t ih =>
      intro p s hs
      rw [List.foldl_cons]
      by_cases hst : s ∈ t
      · exact ih _ s hst
      · have hsa : s = a := by
          rcases List.mem_cons.mp hs with h | h
          · exact h
          · exact absurd h hst
        subst hsa
        rw [pu_fold_not_mem M gamma V t _ s hst]
        simp [PolicyIteration.greedy, pyIdxMax]

lemma policy_update_fst {S : Type} [DecidableEq S] (M : MDP S) (gamma : ℚ) (V : S → ℚ)
    (policy : S → ℤ) (s : S) (hs : s ∈ M.allowed_states) :
    (PolicyIteration.policy_update M gamma V policy).1 s = PolicyIteration.greedy M gamma V s := by
  unfold PolicyIteration.policy_update
  exact pu_fold_mem M gamma V M.allowed_states (policy, 0) s hs

lemma pi_loop_greedy {S : Type} [DecidableEq S] (M : MDP S) (gamma eps : ℚ) (eval_fuel : ℕ) :
    ∀ (fuel : ℕ) (policy : S → ℤ) (changes : List ℚ) (r : (S → ℤ) × List ℚ × (S → ℚ)),
      PolicyIteration.loop M gamma eps eval_fuel fuel policy changes = some r →
      ∀ s ∈ M.allowed_states, r.1 s = PolicyIteration.greedy M gamma r.2.2 s := by
  intro fuel
  induction fuel with
  | zero => intro policy changes r h; exact absurd h (by simp [PolicyIteration.loop])
  | succ fuel ih =>
      intro policy changes r h
      rw [PolicyIteration.loop] at h
      cases hev : PolicyIteration.evaluate_policy M gamma eps policy eval_fuel with
      | none => rw [hev] at h; exact absurd h (by simp)
      | some V =>
          rw [hev] at h
          dsimp only at h
          by_cases h0 : (PolicyIteration.policy_update M gamma V policy).2 = 0
          · rw [if_pos h0] at h
            intro s hs
            rw [← Option.some_inj.mp h]
            exact policy_update_fst M gamma V policy s hs
          · rw [if_neg h0] at h
            exact ih _ _ r h

/-- C4: when Policy Iteration returns, every state of the returned policy
holds the first-occurring argmax over the declared actions of the Q values
computed from the returned value function: the recorded index is in range,
the Q value at it dominates the Q value of every action, and every earlier
action has a strictly different (hence smaller) Q value. -/
theorem pi_policy_first_argmax (S : Type) [DecidableEq S] (M : MDP S) (gamma eps : ℚ)
    (eval_fuel fuel : ℕ) (policy0 : S → ℤ)
    (hA : M.allowed_actions ≠ [])
    (hr : (PolicyIteration.call M gamma eps eval_fuel fuel policy0).isSome = true) :
    ∀ s ∈ M.allowed_states,
      ∃ (j : ℕ) (hj : j < M.allowed_actions.length),
        PolicyIteration.callPolicy M gamma eps eval_fuel fuel policy0 s = (j : ℤ) ∧
        (∀ (i : ℕ) (hi : i < M.allowed_actions.length),
          PolicyIteration.Q M gamma (PolicyIteration.callV M gamma eps eval_fuel fuel policy0) s
              (M.allowed_actions.get ⟨i, hi⟩) ≤
            PolicyIteration.Q M gamma (PolicyIteration.callV M gamma eps eval_fuel fuel policy0) s
              (M.allowed_actions.get ⟨j, hj⟩)) ∧
        (∀ (i : ℕ) (hi : i < j),
          PolicyIteration.Q M gamma (PolicyIteration.callV M gamma eps eval_fuel fuel policy0) s
              (M.allowed_actions.get ⟨i, Nat.lt_trans hi hj⟩) ≠
            PolicyIteration.Q M gamma (PolicyIteration.callV M gamma eps eval_fuel fuel policy0) s
              (M.allowed_actions.get ⟨j, hj⟩)) := by
  intro s hs
  cases hc : PolicyIteration.call M gamma eps eval_fuel fuel policy0 with
  | none => rw [hc] at hr; simp at hr
  | some r =>
      have hpol : PolicyIteration.callPolicy M gamma eps eval_fuel fuel policy0 = r.1 := by
        unfold PolicyIteration.callPolicy
        rw [hc]
      have hV : PolicyIteration.callV M gamma eps eval_fuel fuel policy0 = r.2.2 := by
        unfold PolicyIteration.callV
        rw [hc]
      have hg : r.1 s = PolicyIteration.greedy M gamma r.2.2 s :=
        pi_loop_greedy M gamma eps eval_fuel fuel policy0 [] r hc s hs
      have hQne : M.allowed_actions.map (fun a => PolicyIteration.Q M gamma r.2.2 s a) ≠ [] := by
        intro hnil
        exact hA (List.map_eq_nil_iff.mp hnil)
      have hlen : (M.allowed_actions.map (fun a => PolicyIteration.Q M gamma r.2.2 s a)).length
          = M.allowed_actions.length := List.length_map _ _
      have hjlt : pyIdxMax (M.allowed_actions.map (fun a => PolicyIteration.Q M gamma r.2.2 s a))
          < M.allowed_actions.length := hlen ▸ pyIdxMax_lt hQne
      have hQget : ∀ (i : ℕ) (hi : i < M.allowed_actions.length),
          PolicyIteration.Q M gamma r.2.2 s (M.allowed_actions.get ⟨i, hi⟩) =
            (M.allowed_actions.map (fun a => PolicyIteration.Q M gamma r.2.2 s a)).get
              ⟨i, by rw [hlen]; exact hi⟩ := by
        intro i hi
        simp [List.get_eq_getElem, List.getElem_map]
      refine ⟨pyIdxMax (M.allowed_actions.map (fun a => PolicyIteration.Q M gamma r.2.2 s a)),
        hjlt, ?_, ?_, ?_⟩
      · rw [hpol, hg]
        rfl
      · intro i hi
        rw [hV, hQget i hi, hQget _ hjlt, get_pyIdxMax (hlen.symm ▸ hjlt)]
        exact le_pymax (List.get_mem _ _ _)
      · intro i hi
        rw [hV, hQget i (Nat.lt_trans hi hjlt), hQget _ hjlt, get_pyIdxMax (hlen.symm ▸ hjlt)]
        exact get_before_indexOf _ _ i _ hi

/-- C4 witness: a terminating run on the one-state MDP; the policy entry is
the first (and only) action index, 0. -/
theorem pi_policy_first_argmax_witness :
    PolicyIteration.callPolicy tinyMDP (9 / 10) (1 / 10000) 3 3 (fun _ => 0) () = ((0 : ℕ) : ℤ) := by
  obtain ⟨j, hj, hpi, _, _⟩ := pi_policy_first_argmax Unit tinyMDP (9 / 10) (1 / 10000) 3 3
    (fun _ => 0) (by decide) (by with_unfolding_all decide) () (by decide)
  have hj1 : j < 1 := by simpa [tinyMDP] using hj
  have hj0 : j = 0 := Nat.lt_one_iff.mp hj1
  rw [hpi, hj0]

/-! Q-learning: the temporal-difference update and the zero-episode run. -/

/-- C8: one observed transition (state s, chosen action a, next state s2,
reward r) rewrites the Q table entry at (s, a) to exactly
`Q[s][a] + alpha * (r + gamma * max(Q[s2]) - Q[s][a])`, leaves every other
row untouched, leaves every other index of row s untouched, and preserves
the row length. -/
theorem ql_td_update_pointwise (S : Type) [DecidableEq S] (alpha gamma : ℚ) (Qt : S → List ℚ)
    (s : S) (a : ℕ) (s2 : S) (r : ℚ) (ha : a < (Qt s).length) :
    (QLearning.td_update alpha gamma Qt s a s2 r s).getD a 0 =
      (Qt s).getD a 0 + alpha * (r + gamma * pymax (Qt s2) - (Qt s).getD a 0) ∧
    (∀ t : S, t ≠ s → QLearning.td_update alpha gamma Qt s a s2 r t = Qt t) ∧
    (∀ b : ℕ, b ≠ a →
      (QLearning.td_update alpha gamma Qt s a s2 r s).getD b 0 = (Qt s).getD b 0) ∧
    (QLearning.td_update alpha gamma Qt s a s2 r s).length = (Qt s).length := by
  refine ⟨?_, ?_, ?_, ?_⟩
  · unfold QLearning.td_update
    rw [if_pos rfl]
    simp [List.getD_eq_getElem?_getD, List.getElem?_set_self ha]
  · intro t ht
    unfold QLearning.td_update
    rw [if_neg ht]
  · intro b hb
    unfold QLearning.td_update
    rw [if_pos rfl]
    simp [List.getD_eq_getElem?_getD, List.getElem?_set_ne (fun he => hb he.symm)]
  · unfold QLearning.td_update
    rw [if_pos rfl]
    exact List.length_set _ _ _

/-- C8 witness: a concrete update with Q row [1, 2] at s = true, a = 0,
reward 3, next row [1, 2]: entry 0 becomes 1 + (1/2)(3 + (1/10)2 - 1), the
other row and the other index stay. -/
theorem ql_td_update_pointwise_witness :
    (QLearning.td_update (1 / 2) (1 / 10) (fun _ : Bool => [(1 : ℚ), 2])
        true 0 false 3 true).getD 0 0 =
      ((fun _ : Bool => [(1 : ℚ), 2]) true).getD 0 0 +
        (1 / 2) * (3 + (1 / 10) * pymax ((fun _ : Bool => [(1 : ℚ), 2]) false) -
          ((fun _ : Bool => [(1 : ℚ), 2]) true).getD 0 0) ∧
    QLearning.td_update (1 / 2) (1 / 10) (fun _ : Bool => [(1 : ℚ), 2]) true 0 false 3 false =
      (fun _ : Bool => [(1 : ℚ), 2]) false ∧
    (QLearning.td_update (1 / 2) (1 / 10) (fun _ : Bool => [(1 : ℚ), 2])
        true 0 false 3 true).getD 1 0 = ((fun _ : Bool => [(1 : ℚ), 2]) true).getD 1 0 :=
  ⟨(ql_td_update_pointwise Bool (1 / 2) (1 / 10) (fun _ => [(1 : ℚ), 2]) true 0 false 3
      (by decide)).1,
   (ql_td_update_pointwise Bool (1 / 2) (1 / 10) (fun _ => [(1 : ℚ), 2]) true 0 false 3
      (by decide)).2.1 false (by decide),
   (ql_td_update_pointwise Bool (1 / 2) (1 / 10) (fun _ => [(1 : ℚ), 2]) true 0 false 3
      (by decide)).2.2.1 1 (by decide)⟩

lemma foldl_max_replicate_zero : ∀ m : ℕ, (List.replicate m (0 : ℚ)).foldl max 0 = 0 := by
  intro m
  induction m with
  | zero => rfl
  | succ m ih => rw [List.replicate_succ, List.foldl_cons, max_self]; exact ih

lemma pymax_replicate_zero {n : ℕ} (hn : 0 < n) : pymax (List.replicate n (0 : ℚ)) = 0 := by
  cases n with
  | zero => exact absurd hn (by simp)
  | succ m => rw [List.replicate_succ]; exact foldl_max_replicate_zero m

lemma pyIdxMax_replicate_zero {n : ℕ} (hn : 0 < n) : pyIdxMax (List.replicate n (0 : ℚ)) = 0 := by
  cases n with
  | zero => exact absurd hn (by simp)
  | succ m =>
      unfold pyIdxMax
      rw [pymax_replicate_zero hn, List.replicate_succ]
      exact List.indexOf_cons_self 0 _

/-- The pre-loop mean state value of the zero-initialised Q table is 0. -/
lemma ql_mean_V_zero {S : Type} [DecidableEq S] (M : MDP S) (hA : M.allowed_actions ≠ []) :
    QLearning.mean_V M (fun _ => List.replicate M.allowed_actions.length 0) = 0 := by
  unfold QLearning.mean_V
  rw [foldl_add_eq]
  have hz : ∀ s ∈ M.allowed_states,
      pymax (List.replicate M.allowed_actions.length (0 : ℚ)) = (0 : ℚ) := by
    intro s _
    exact pymax_replicate_zero (List.length_pos.mpr hA)
  rw [List.map_congr_left hz]
  simp

/-- C10: running Q-learning for zero episodes returns, independently of the
environment (so without any reset or step): the diagnostic sequence is the
single-element list [0] and the policy maps every state to action index 0. -/
theorem ql_zero_episodes (S : Type) [DecidableEq S] (M : MDP S) (E : Type) (env : EnvIface E S)
    (e0 : E) (alpha gamma eps0 : ℚ) (tape : QLearning.RandTape) (inner_fuel : ℕ)
    (hS : M.allowed_states ≠ []) (hA : M.allowed_actions ≠ []) :
    (QLearning.call M env e0 alpha gamma eps0 tape inner_fuel 0).map (Except.map Prod.snd) =
      some (Except.ok [0]) ∧
    ∀ s : S, QLearning.callPolicy M env e0 alpha gamma eps0 tape inner_fuel 0 s = 0 := by
  have hcall : QLearning.call M env e0 alpha gamma eps0 tape inner_fuel 0 =
      some (Except.ok
        ((fun s => pyIdxMax ((fun _ : S => List.replicate M.allowed_actions.length (0 : ℚ)) s)),
         [QLearning.mean_V M (fun _ => List.replicate M.allowed_actions.length 0)])) := rfl
  constructor
  · rw [hcall, ql_mean_V_zero M hA]
    rfl
  · intro s
    unfold QLearning.callPolicy
    rw [hcall]
    exact pyIdxMax_replicate_zero (List.length_pos.mpr hA)

/-- C10 witness: the zero-episode run on the one-state MDP. -/
theorem ql_zero_episodes_witness :
    (QLearning.call tinyMDP tinyEnv () (1 / 100) (9 / 10) 1 zeroTape 5 0).map
      (Except.map Prod.snd) = some (Except.ok [0]) ∧
    QLearning.callPolicy tinyMDP tinyEnv () (1 / 100) (9 / 10) 1 zeroTape 5 0 () = 0 :=
  ⟨(ql_zero_episodes Unit tinyMDP Unit tinyEnv () (1 / 100) (9 / 10) 1 zeroTape 5
      (by decide) (by decide)).1,
   (ql_zero_episodes Unit tinyMDP Unit tinyEnv () (1 / 100) (9 / 10) 1 zeroTape 5
      (by decide) (by decide)).2 ()⟩

/-! Invariants of a Q-learning run: the Q rows keep one entry per declared
action, every action passed to the environment is an in-range index, and
the invalid-action error therefore never fires. -/

lemma ql_td_lengths {S : Type} [DecidableEq S] (alpha gamma : ℚ) (Qt : S → List ℚ)
    (s : S) (a : ℕ) (s2 : S) (r : ℚ) (L : ℕ) (hQ : ∀ w : S, (Qt w).length = L) :
    ∀ w : S, (QLearning.td_update alpha gamma Qt s a s2 r w).length = L := by
  intro w
  unfold QLearning.td_update
  by_cases hw : w = s
  · rw [if_pos hw, List.length_set]
    exact hQ s
  · rw [if_neg hw]
    exact hQ w

lemma ql_inner_lengths {S E : Type} [DecidableEq S] (M : MDP S) (env : EnvIface E S)
    (alpha gamma : ℚ) (tape : QLearning.RandTape) :
    ∀ (fuel t : ℕ) (eps : ℚ) (e : E) (s : S) (done : Bool) (Qt : S → List ℚ) (msv : List ℚ)
      (t2 : ℕ) (e2 : E) (Q2 : S → List ℚ) (msv2 : List ℚ),
      (∀ w : S, (Qt w).length = M.allowed_actions.length) →
      QLearning.inner M env alpha gamma tape fuel t eps e s done Qt msv =
        some (Except.ok (t2, e2, Q2, msv2)) →
      ∀ w : S, (Q2 w).length = M.allowed_actions.length := by
  intro fuel
  induction fuel with
  | zero =>
      intro t eps e s done Qt msv t2 e2 Q2 msv2 hQ h
      rw [QLearning.inner] at h
      by_cases hd : done = true
      · rw [if_pos hd] at h
        simp only [Option.some_inj, Except.ok.injEq, Prod.mk.injEq] at h
        rw [← h.2.2.1]
        exact hQ
      · rw [if_neg hd] at h
        exact absurd h (by simp)
  | succ fuel ih =>
      intro t eps e s done Qt msv t2 e2 Q2 msv2 hQ h
      rw [QLearning.inner] at h
      by_cases hd : done = true
      · rw [if_pos hd] at h
        simp only [Option.some_inj, Except.ok.injEq, Prod.mk.injEq] at h
        rw [← h.2.2.1]
        exact hQ
      · rw [if_neg hd] at h
        dsimp only at h
        rcases hst : env.step e ((QLearning.select_action M tape t eps Qt s : ℕ) : ℤ)
            (tape.d t) with ⟨e3, exr⟩
        rw [hst] at h
        cases exr with
        | error u => simp at h
        | ok trip =>
            obtain ⟨s2, r, end2⟩ := trip
            exact ih (t + 1) eps e3 s2 end2 _ _ t2 e2 Q2 msv2
              (ql_td_lengths alpha gamma Qt s _ s2 r _ hQ) h

lemma ql_episodes_lengths {S E : Type} [DecidableEq S] (M : MDP S) (env : EnvIface E S)
    (alpha gamma : ℚ) (tape : QLearning.RandTape) (inner_fuel : ℕ) :
    ∀ (n t : ℕ) (eps : ℚ) (e : E) (Qt : S → List ℚ) (msv : List ℚ)
      (Qf : S → List ℚ) (msvf : List ℚ),
      (∀ w : S, (Qt w).length = M.allowed_actions.length) →
      QLearning.episodes M env alpha gamma tape inner_fuel n t eps e Qt msv =
        some (Except.ok (Qf, msvf)) →
      ∀ w : S, (Qf w).length = M.allowed_actions.length := by
  intro n
  induction n with
  | zero =>
      intro t eps e Qt msv Qf msvf hQ h
      rw [QLearning.episodes] at h
      simp only [Option.some_inj, Except.ok.injEq, Prod.mk.injEq] at h
      rw [← h.1]
      exact hQ
  | succ n ih =>
      intro t eps e Qt msv Qf msvf hQ h
      rw [QLearning.episodes] at h
      rcases hin : QLearning.inner M env alpha gamma tape inner_fuel t
          ((9995 / 10000 : ℚ) * eps) (env.reset e).1 (env.reset e).2.1 (env.reset e).2.2.2
          Qt msv with _ | exr
      · rw [hin] at h
        exact absurd h (by simp)
      · rw [hin] at h
        cases exr with
        | error u => exact absurd h (by simp)
        | ok quad =>
            obtain ⟨t2, e2, Q2, msv2⟩ := quad
            exact ih t2 _ e2 Q2 msv2 Qf msvf
              (ql_inner_lengths M env alpha gamma tape inner_fuel t _ _ _ _ Qt msv
                t2 e2 Q2 msv2 hQ hin) h

lemma ql_select_action_lt {S : Type} [DecidableEq S] (M : MDP S) (tape : QLearning.RandTape)
    (t : ℕ) (eps : ℚ) (Qt : S → List ℚ) (s : S)
    (hn : 0 < M.allowed_actions.length)
    (hQ : ∀ w : S, (Qt w).length = M.allowed_actions.length) :
    QLearning.select_action M tape t eps Qt s < M.allowed_actions.length := by
  unfold QLearning.select_action
  by_cases hp : tape.p t < eps
  · rw [if_pos hp]
    exact Nat.mod_lt _ hn
  · rw [if_neg hp]
    have hne : Qt s ≠ [] := by
      have hpos : 0 < (Qt s).length := by rw [hQ s]; exact hn
      intro hnil
      rw [hnil] at hpos
      simp at hpos
    exact (hQ s) ▸ pyIdxMax_lt hne

lemma ql_inner_no_error {S E : Type} [DecidableEq S] (M : MDP S) (env : EnvIface E S)
    (alpha gamma : ℚ) (tape : QLearning.RandTape)
    (hn : 0 < M.allowed_actions.length)
    (hstep : ∀ (e : E) (a : ℕ) (d : ℕ), a < M.allowed_actions.length →
      isError (env.step e (a : ℤ) d).2 = false) :
    ∀ (fuel t : ℕ) (eps : ℚ) (e : E) (s : S) (done : Bool) (Qt : S → List ℚ) (msv : List ℚ)
      (u : Unit),
      (∀ w : S, (Qt w).length = M.allowed_actions.length) →
      QLearning.inner M env alpha gamma tape fuel t eps e s done Qt msv ≠
        some (Except.error u) := by
  intro fuel
  induction fuel with
  | zero =>
      intro t eps e s done Qt msv u hQ h
      rw [QLearning.inner] at h
      by_cases hd : done = true
      · rw [if_pos hd] at h
        simp at h
      · rw [if_neg hd] at h
        simp at h
  | succ fuel ih =>
      intro t eps e s done Qt msv u hQ h
      rw [QLearning.inner] at h
      by_cases hd : done = true
      · rw [if_pos hd] at h
        simp at h
      · rw [if_neg hd] at h
        dsimp only at h
        rcases hst : env.step e ((QLearning.select_action M tape t eps Qt s : ℕ) : ℤ)
            (tape.d t) with ⟨e3, exr⟩
        rw [hst] at h
        cases exr with
        | error v =>
            have hff := hstep e (QLearning.select_action M tape t eps Qt s) (tape.d t)
              (ql_select_action_lt M tape t eps Qt s hn hQ)
            rw [hst] at hff
            simp [isError] at hff
        | ok trip =>
            obtain ⟨s2, r, end2⟩ := trip
            exact ih (t + 1) eps e3 s2 end2 _ _ u
              (ql_td_lengths alpha gamma Qt s _ s2 r _ hQ) h

lemma ql_episodes_no_error {S E : Type} [DecidableEq S] (M : MDP S) (env : EnvIface E S)
    (alpha gamma : ℚ) (tape : QLearning.RandTape) (inner_fuel : ℕ)
    (hn : 0 < M.allowed_actions.length)
    (hstep : ∀ (e : E) (a : ℕ) (d : ℕ), a < M.allowed_actions.length →
      isError (env.step e (a : ℤ) d).2 = false) :
    ∀ (n t : ℕ) (eps : ℚ) (e : E) (Qt : S → List ℚ) (msv : List ℚ) (u : Unit),
      (∀ w : S, (Qt w).length = M.allowed_actions.length) →
      QLearning.episodes M env alpha gamma tape inner_fuel n t eps e Qt msv ≠
        some (Except.error u) := by
  intro n
  induction n with
  | zero =>
      intro t eps e Qt msv u hQ h
      rw [QLearning.episodes] at h
      simp at h
  | succ n ih =>
      intro t eps e Qt msv u hQ h
      rw [QLearning.episodes] at h
      rcases hin : QLearning.inner M env alpha gamma tape inner_fuel t
          ((9995 / 10000 : ℚ) * eps) (env.reset e).1 (env.reset e).2.1 (env.reset e).2.2.2
          Qt msv with _ | exr
      · rw [hin] at h
        simp at h
      · rw [hin] at h
        cases exr with
        | error v =>
            exact ql_inner_no_error M env alpha gamma tape hn hstep inner_fuel t _ _ _ _
              Qt msv v hQ hin
        | ok quad =>
            obtain ⟨t2, e2, Q2, msv2⟩ := quad
            exact ih t2 _ e2 Q2 msv2 u
              (ql_inner_lengths M env alpha gamma tape inner_fuel t _ _ _ _ Qt msv
                t2 e2 Q2 msv2 hQ hin) h

lemma ql_call_no_error {S E : Type} [DecidableEq S] (M : MDP S) (env : EnvIface E S)
    (hn : 0 < M.allowed_actions.length)
    (hstep : ∀ (e : E) (a : ℕ) (d : ℕ), a < M.allowed_actions.length →
      isError (env.step e (a : ℤ) d).2 = false)
    (e0 : E) (alpha gamma eps0 : ℚ) (tape : QLearning.RandTape)
    (inner_fuel num_episodes : ℕ) :
    errored (QLearning.call M env e0 alpha gamma eps0 tape inner_fuel num_episodes) = false := by
  unfold QLearning.call
  dsimp only
  rcases hep : QLearning.episodes M env alpha gamma tape inner_fuel num_episodes 0 eps0 e0
      (fun _ => List.replicate M.allowed_actions.length 0)
      [QLearning.mean_V M (fun _ => List.replicate M.allowed_actions.length 0)]
    with _ | exr
  · rfl
  · cases exr with
    | error u =>
        exact absurd hep (ql_episodes_no_error M env alpha gamma tape inner_fuel hn hstep
          num_episodes 0 eps0 e0 _ _ u (fun w => List.length_replicate _ _))
    | ok pr =>
        obtain ⟨Qf, msvf⟩ := pr
        rfl

lemma ql_call_policy_lt {S E : Type} [DecidableEq S] (M : MDP S) (env : EnvIface E S)
    (hn : 0 < M.allowed_actions.length)
    (e0 : E) (alpha gamma eps0 : ℚ) (tape : QLearning.RandTape)
    (inner_fuel num_episodes : ℕ)
    (hok : isOkRun (QLearning.call M env e0 alpha gamma eps0 tape inner_fuel num_episodes)
      = true) :
    ∀ s : S, QLearning.callPolicy M env e0 alpha gamma eps0 tape inner_fuel num_episodes s
      < M.allowed_actions.length := by
  intro s
  unfold QLearning.callPolicy
  unfold QLearning.call at hok ⊢
  dsimp only at hok ⊢
  rcases hep : QLearning.episodes M env alpha gamma tape inner_fuel num_episodes 0 eps0 e0
      (fun _ => List.replicate M.allowed_actions.length 0)
      [QLearning.mean_V M (fun _ => List.replicate M.allowed_actions.length 0)]
    with _ | exr
  · rw [hep] at hok
    simp [isOkRun] at hok
  · rw [hep] at hok
    cases exr with
    | error u => simp [isOkRun] at hok
    | ok pr =>
        obtain ⟨Qf, msvf⟩ := pr
        have hlen := ql_episodes_lengths M env alpha gamma tape inner_fuel num_episodes 0
          eps0 e0 _ _ Qf msvf (fun w => List.length_replicate _ _) hep
        have hne : Qf s ≠ [] := by
          have hpos : 0 < (Qf s).length := by rw [hlen s]; exact hn
          intro hnil
          rw [hnil] at hpos
          simp at hpos
        exact (hlen s) ▸ pyIdxMax_lt hne

/-- Any in-range index (0 ≤ a < 4) is a declared TomAndJerry action. -/
lemma tj_mem_of_lt (a : ℕ) (ha : a < 4) : ((a : ℕ) : ℤ) ∈ TomAndJerry.allowed_actions := by
  simp only [TomAndJerry.allowed_actions, List.mem_cons, List.not_mem_nil, or_false]
  omega

/-- Any in-range index (0 ≤ a < 9) is a declared BitStrings action. -/
lemma bs_mem_of_lt (a : ℕ) (ha : a < 9) : ((a : ℕ) : ℤ) ∈ BitStrings.allowed_actions := by
  rw [bs_action_mem]
  omega

lemma tj_step_no_error (e : ℤ × ℤ) (a : ℕ) (d : ℕ) (ha : a < 4) :
    isError (TomAndJerry.step e ((a : ℕ) : ℤ) d).2 = false :=
  Bool.eq_false_iff.mpr (fun ht => (step_error_iff_aux.1 e _ d).mp ht (tj_mem_of_lt a ha))

lemma bs_step_no_error (e : List Bool) (a : ℕ) (d : ℕ) (ha : a < 9) :
    isError (BitStrings.step e ((a : ℕ) : ℤ) d).2 = false :=
  Bool.eq_false_iff.mpr (fun ht => (step_error_iff_aux.2 e _ d).mp ht (bs_mem_of_lt a ha))

/-- C7: on both concrete environments, a Q-learning run never raises the
invalid-action error, whatever the random tape, the starting internal
state, the hyperparameters or the fuel: every action the solver passes to
`step` (uniformly random index or greedy index) is in range. -/
theorem ql_never_invalid_action :
    (∀ (e0 : ℤ × ℤ) (alpha gamma eps0 : ℚ) (tape : QLearning.RandTape)
      (inner_fuel num_episodes : ℕ),
      errored (QLearning.call tomAndJerryMDP tomAndJerryEnv e0 alpha gamma eps0 tape
        inner_fuel num_episodes) = false) ∧
    (∀ (e0 : List Bool) (alpha gamma eps0 : ℚ) (tape : QLearning.RandTape)
      (inner_fuel num_episodes : ℕ),
      errored (QLearning.call bitStringsMDP bitStringsEnv e0 alpha gamma eps0 tape
        inner_fuel num_episodes) = false) := by
  constructor
  · intro e0 alpha gamma eps0 tape inner_fuel num_episodes
    exact ql_call_no_error tomAndJerryMDP tomAndJerryEnv (by decide)
      (fun e a d ha => tj_step_no_error e a d ha) e0 alpha gamma eps0 tape
      inner_fuel num_episodes
  · intro e0 alpha gamma eps0 tape inner_fuel num_episodes
    exact ql_call_no_error bitStringsMDP bitStringsEnv (by decide)
      (fun e a d ha => bs_step_no_error e a d ha) e0 alpha gamma eps0 tape
      inner_fuel num_episodes

/-- An index below n, cast to ℤ, is in the list 0..n-1. -/
lemma mem_intRange (n i : ℕ) (h : i < n) : ((i : ℕ) : ℤ) ∈ intRange n := by
  simp only [intRange, List.mem_map, List.mem_range]
  exact ⟨i, h, rfl⟩

/-- C5: both environments declare the action list 0..n-1, and for every
MDP of that shape each of the three solvers returns a policy whose every
entry is a member of the declared action list. -/
theorem policy_entries_in_action_set :
    TomAndJerry.allowed_actions = intRange 4 ∧
    BitStrings.allowed_actions = intRange 9 ∧
    (∀ (S : Type) (inst : DecidableEq S) (M : MDP S) (n : ℕ),
      M.allowed_actions = intRange n → 0 < n →
      ∀ (gamma eps : ℚ) (fuel : ℕ),
        (ValueIteration.call M gamma eps fuel).isSome = true →
        ∀ s ∈ M.allowed_states,
          ((ValueIteration.callPolicy M gamma eps fuel s : ℕ) : ℤ) ∈ M.allowed_actions) ∧
    (∀ (S : Type) (inst : DecidableEq S) (M : MDP S) (n : ℕ),
      M.allowed_actions = intRange n → 0 < n →
      ∀ (gamma eps : ℚ) (eval_fuel fuel : ℕ) (policy0 : S → ℤ),
        (PolicyIteration.call M gamma eps eval_fuel fuel policy0).isSome = true →
        ∀ s ∈ M.allowed_states,
          PolicyIteration.callPolicy M gamma eps eval_fuel fuel policy0 s
            ∈ M.allowed_actions) ∧
    (∀ (S E : Type) (inst : DecidableEq S) (M : MDP S) (env : EnvIface E S) (n : ℕ),
      M.allowed_actions = intRange n → 0 < n →
      ∀ (e0 : E) (alpha gamma eps0 : ℚ) (tape : QLearning.RandTape)
        (inner_fuel num_episodes : ℕ),
        isOkRun (QLearning.call M env e0 alpha gamma eps0 tape inner_fuel num_episodes)
          = true →
        ∀ s ∈ M.allowed_states,
          ((QLearning.callPolicy M env e0 alpha gamma eps0 tape inner_fuel num_episodes s
            : ℕ) : ℤ) ∈ M.allowed_actions) := by
  have hlenR : ∀ n : ℕ, (intRange n).length = n := by
    intro n
    simp [intRange]
  refine ⟨by decide, rfl, ?_, ?_, ?_⟩
  · intro S inst M n hact hn gamma eps fuel hsome s hs
    rcases hl : ValueIteration.loop M gamma eps fuel (fun _ => 0)
        [ValueIteration.mean_V M (fun _ => 0)] with _ | ⟨V, msv⟩
    · have hc : ValueIteration.call M gamma eps fuel = none := by
        unfold ValueIteration.call
        rw [hl]
      rw [hc] at hsome
      simp at hsome
    · have hc : ValueIteration.call M gamma eps fuel =
          some (fun s => pyIdxMax (M.allowed_actions.map
            (fun a => ValueIteration.Q M gamma V s a)), msv) := by
        unfold ValueIteration.call
        rw [hl]
      have hp : ValueIteration.callPolicy M gamma eps fuel s =
          pyIdxMax (M.allowed_actions.map (fun a => ValueIteration.Q M gamma V s a)) := by
        unfold ValueIteration.callPolicy
        rw [hc]
      have hne : M.allowed_actions.map (fun a => ValueIteration.Q M gamma V s a) ≠ [] := by
        intro hnil
        have := congrArg List.length hnil
        rw [List.length_map, hact, hlenR n] at this
        simp at this
        omega
      have hlen2 : (M.allowed_actions.map (fun a => ValueIteration.Q M gamma V s a)).length
          = n := by
        rw [List.length_map, hact, hlenR n]
      have hlt : pyIdxMax (M.allowed_actions.map (fun a => ValueIteration.Q M gamma V s a))
          < n := hlen2 ▸ pyIdxMax_lt hne
      rw [hp]
      have hmem := mem_intRange n
        (pyIdxMax (M.allowed_actions.map (fun a => ValueIteration.Q M gamma V s a))) hlt
      rwa [← hact] at hmem
  · intro S inst M n hact hn gamma eps eval_fuel fuel policy0 hsome s hs
    cases hc : PolicyIteration.call M gamma eps eval_fuel fuel policy0 with
    | none => rw [hc] at hsome; simp at hsome
    | some r =>
        have hpol : PolicyIteration.callPolicy M gamma eps eval_fuel fuel policy0 s =
            r.1 s := by
          unfold PolicyIteration.callPolicy
          rw [hc]
        have hg : r.1 s = PolicyIteration.greedy M gamma r.2.2 s :=
          pi_loop_greedy M gamma eps eval_fuel fuel policy0 [] r hc s hs
        have hne : M.allowed_actions.map (fun a => PolicyIteration.Q M gamma r.2.2 s a)
            ≠ [] := by
          intro hnil
          have := congrArg List.length hnil
          rw [List.length_map, hact, hlenR n] at this
          simp at this
          omega
        have hlen2 : (M.allowed_actions.map
            (fun a => PolicyIteration.Q M gamma r.2.2 s a)).length = n := by
          rw [List.length_map, hact, hlenR n]
        have hlt : pyIdxMax (M.allowed_actions.map
            (fun a => PolicyIteration.Q M gamma r.2.2 s a)) < n := hlen2 ▸ pyIdxMax_lt hne
        rw [hpol, hg]
        unfold PolicyIteration.greedy
        have hmem := mem_intRange n
          (pyIdxMax (M.allowed_actions.map (fun a => PolicyIteration.Q M gamma r.2.2 s a))) hlt
        rwa [← hact] at hmem
  · intro S E inst M env n hact hn e0 alpha gamma eps0 tape inner_fuel num_episodes hok s hs
    have hn2 : 0 < M.allowed_actions.length := by
      rw [hact, hlenR n]
      exact hn
    have hlt := ql_call_policy_lt M env hn2 e0 alpha gamma eps0 tape inner_fuel
      num_episodes hok s
    rw [hact, hlenR n] at hlt
    rw [hact]
    exact mem_intRange n _ hlt

/-- C5 witness: on the one-state MDP all three solvers return a policy
whose entry at the single state is a declared action. -/
theorem policy_entries_in_action_set_witness :
    ((ValueIteration.callPolicy tinyMDP (9 / 10) (1 / 10000) 5 () : ℕ) : ℤ)
      ∈ tinyMDP.allowed_actions ∧
    PolicyIteration.callPolicy tinyMDP (9 / 10) (1 / 10000) 3 3 (fun _ => 0) ()
      ∈ tinyMDP.allowed_actions ∧
    ((QLearning.callPolicy tinyMDP tinyEnv () (1 / 100) (9 / 10) 1 zeroTape 5 0 () : ℕ) : ℤ)
      ∈ tinyMDP.allowed_actions :=
  ⟨policy_entries_in_action_set.2.2.1 Unit inferInstance tinyMDP 1 (by decide) (by decide)
      (9 / 10) (1 / 10000) 5 (by with_unfolding_all decide) () (by decide),
   policy_entries_in_action_set.2.2.2.1 Unit inferInstance tinyMDP 1 (by decide) (by decide)
      (9 / 10) (1 / 10000) 3 3 (fun _ => 0) (by with_unfolding_all decide) () (by decide),
   policy_entries_in_action_set.2.2.2.2 Unit Unit inferInstance tinyMDP tinyEnv 1 (by decide)
      (by decide) () (1 / 100) (9 / 10) 1 zeroTape 5 0 (by with_unfolding_all decide) ()
      (by decide)⟩

end Spec2Proof
